import Mathlib

/-!
# Verification of `abelfunctions/riemannsurface.py`

A shallow embedding of the `RiemannSurface` orchestration layer of the
abelfunctions repository, together with models (from the specification) of the
collaborator modules (`abelfunctions.monodromy`, `abelfunctions.homology`,
`abelfunctions.riemannsurface_path`, `abelfunctions.differentials`,
`abelfunctions.singularities`, `abelfunctions.utilities`) whose sources are not
part of the repository snapshot under verification.

Numeric complex scalars (numpy `complex`) are modelled by exact pairs of
rationals `Cplx`; the float comparison `abs(a - b) < 1e-15` is modelled by the
exact comparison `normSq (a - b) < (1e-15)^2`.
-/

set_option autoImplicit false

/-- Exact model of a numpy complex scalar: a pair of rational components. -/
structure Cplx where
  re : ℚ
  im : ℚ
deriving DecidableEq, Repr

instance : Zero Cplx := ⟨⟨0, 0⟩⟩

instance : One Cplx := ⟨⟨1, 0⟩⟩

instance : Add Cplx := ⟨fun a b => ⟨a.re + b.re, a.im + b.im⟩⟩

instance : Neg Cplx := ⟨fun a => ⟨-a.re, -a.im⟩⟩

instance : Sub Cplx := ⟨fun a b => ⟨a.re - b.re, a.im - b.im⟩⟩

instance : Mul Cplx := ⟨fun a b => ⟨a.re * b.re - a.im * b.im, a.re * b.im + a.im * b.re⟩⟩

/-- Embed a rational into `Cplx` (real axis). -/
def Cplx.ofRat (q : ℚ) : Cplx := ⟨q, 0⟩

/-- Squared modulus `|z|²`, used to model float magnitude comparisons exactly. -/
def Cplx.normSq (z : Cplx) : ℚ := z.re * z.re + z.im * z.im

/-- `abs(a - b) < 1e-15` on numpy complex numbers, modelled exactly via
`|a-b|² < (1e-15)²`. -/
def Cplx.near (a b : Cplx) : Bool :=
  decide ((a - b).normSq < (1 / 10 ^ 15 : ℚ) ^ 2)

/-- Errors.  The first four constructors are the specification's error taxonomy
(§7: NumericalPrecisionError, BranchPointCollisionError, ConsistencyError,
InputError); the last two model uncaught Python exceptions (`IndexError` from
indexing an empty list, `TypeError` from tuple-unpacking a non-tuple), which
are *not* part of the taxonomy. -/
inductive Err where
  | numericalPrecision
  | branchPointCollision
  | consistency
  | input
  | indexError
  | typeError
deriving DecidableEq, Repr

/-- Modelled from the spec: `abelfunctions/riemannsurface_path.py` is not under
`src/`.  §4.2 describes a ComplexPathSegment as one directed leg in the complex
x-plane; the claims under verification depend only on each leg's endpoints, so
a segment is modelled by its start and stop points. -/
structure Segment where
  start : Cplx
  stop : Cplx
deriving DecidableEq, Repr

/-- Reverse a single directed segment (used for the return leg of a branch
point path). -/
def Segment.flip (s : Segment) : Segment := ⟨s.stop, s.start⟩

/-- One entry of a homology c-cycle: the cycle is an alternating list of sheet
indices (even positions) and (branch point, winding count) tuples (odd
positions), as described by the spec's CCycle data model (§3). -/
inductive CycleEntry where
  | sheet (s : ℤ)
  | loop (bpt : Cplx) (rot : ℤ)
deriving DecidableEq, Repr

/-- `true` iff the entry is a (branch point, winding) tuple. -/
def CycleEntry.isLoop : CycleEntry → Bool
  | .sheet _ => false
  | .loop _ _ => true

/-- Node attributes of the monodromy graph actually read by
`riemannsurface.py`: the node's branch point `value`. -/
structure NodeData where
  value : Cplx
deriving DecidableEq, Repr

/-- Modelled from the spec: `abelfunctions/monodromy.py` is not under `src/`.
§3's MonodromyGraph: nodes are branch points (`nodes` lists them in the
iteration order of `G.nodes(data=True)`), the designated base-point node
carries the base point value (`basepoint`, read as `G.node[0]['basepoint']`),
the ordered base sheet values (`baselift`), and the tree root id (`root`, read
as `G.node[0]['root']`); `parent` is the spanning-tree parent edge of each
node (§9's parent-edge field). -/
structure MonodromyGraph where
  nodes : List (ℕ × NodeData)
  basepoint : Cplx
  baselift : List Cplx
  root : ℕ
  parent : ℕ → Option ℕ

/-- Modelled from the spec: output of §4.1's
`discover(f, x, y) -> (base_point, base_sheets, branch_points,
monodromy_permutations, graph)`; the base point and base sheets are the ones
stored on the graph's base-point node. -/
structure MonodromyData where
  branch_points : List Cplx
  mon : List (List ℕ)
  graph : MonodromyGraph

/-- The base point of the discovery output (component 0 of the tuple). -/
def MonodromyData.base_point (m : MonodromyData) : Cplx := m.graph.basepoint

/-- The ordered base sheets of the discovery output (component 1 of the
tuple). -/
def MonodromyData.base_sheets (m : MonodromyData) : List Cplx := m.graph.baselift

/-- Apply a permutation given as a list of images to a sheet index. -/
def permApply (p : List ℕ) (i : ℕ) : ℕ := p.getD i i

/-- Compose two permutations-as-lists: `(permCompose p q) i = p (q i)`. -/
def permCompose (p q : List ℕ) : List ℕ := q.map (permApply p)

/-- Compose a list of permutations of `{0, …, n-1}` in order, starting from the
identity. -/
def composeAll (ps : List (List ℕ)) (n : ℕ) : List ℕ :=
  ps.foldl permCompose (List.range n)

/-- Modelled from the spec: look up the `value` attribute of a graph node by
its integer id (§9's arena indexed by integer node id). -/
def nodeValue (G : MonodromyGraph) (k : ℕ) : Cplx :=
  (((G.nodes.filter (fun kd => kd.1 == k)).head?).map (fun kd => kd.2.value)).getD 0

/-- Modelled from the spec: the chain of node ids from a node up the spanning
tree to the root, following parent edges; fuelled by the node count so the
traversal always terminates. -/
def treeChain (G : MonodromyGraph) : ℕ → ℕ → List ℕ
  | 0, i => [i]
  | fuel + 1, i =>
    match G.parent i with
    | none => [i]
    | some p => i :: treeChain G fuel p

/-- Modelled from the spec (§4.3): the intermediate tree-node waypoints
between the base point and the target branch point (the target itself
excluded). -/
def approachInterior (G : MonodromyGraph) (i : ℕ) : List Cplx :=
  (((treeChain G G.nodes.length i).reverse).map (nodeValue G)).dropLast

/-- Modelled from the spec (§4.3): the point adjacent to the target at which
the circling legs start and end (the midpoint of the last waypoint and the
target). -/
def adjacentPoint (G : MonodromyGraph) (i : ℕ) : Cplx :=
  ((G.basepoint :: approachInterior G i).getLastD G.basepoint + nodeValue G i) *
    Cplx.ofRat (1 / 2)

/-- Modelled from the spec (§4.3): the x-plane waypoints of the approach leg —
from the base point, along the tree nodes, to the point adjacent to the
target. -/
def approachPoints (G : MonodromyGraph) (i : ℕ) : List Cplx :=
  G.basepoint :: (approachInterior G i ++ [adjacentPoint G i])

/-- Straight-leg segments through a list of waypoints. -/
def segmentsThrough (pts : List Cplx) : List Segment :=
  (pts.zip pts.tail).map (fun p => ⟨p.1, p.2⟩)

/-- Modelled from the spec (§4.3): the legs circling the target branch point
`|n|` times, entering and leaving at the adjacent point `adj`; each full turn
is two half-circle legs between `adj` and its antipode across the target. -/
def circleSegments (center adj : Cplx) (n : ℤ) : List Segment :=
  let opp := center + center - adj
  (List.range (2 * n.natAbs)).map (fun j => if j % 2 = 0 then ⟨adj, opp⟩ else ⟨opp, adj⟩)

/-- Modelled from the spec: `path_around_branch_point` of
`abelfunctions/riemannsurface_path.py` is not under `src/`.  §4.3: produce the
ordered segments that travel along the tree from the base point to a point
adjacent to the target, circle the target `n` times, then return along the
same tree path; `n = 0` yields an empty segment list. -/
def path_around_branch_point (G : MonodromyGraph) (i : ℕ) (n : ℤ) : List Segment :=
  if n = 0 then []
  else
    let approach := segmentsThrough (approachPoints G i)
    approach ++ circleSegments (nodeValue G i) (adjacentPoint G i) n ++
      (approach.reverse.map Segment.flip)

/-- The Python slice `cycle[1::2]`: the entries at odd positions. -/
def slice1by2 {α : Type} : List α → List α
  | [] => []
  | [_] => []
  | _ :: b :: rest => b :: slice1by2 rest

/-- The node-id comprehension of `riemannsurface.py` lines 149–150:
`[key for key, data in G.nodes(data=True) if abs(data['value'] - bpt) < 1e-15]`. -/
def bptMatches (G : MonodromyGraph) (bpt : Cplx) : List ℕ :=
  (G.nodes.filter (fun kd => Cplx.near kd.2.value bpt)).map (fun kd => kd.1)

/-- Embedding of the loop body of `cycle_paths` for one odd cycle entry: look
the branch point up among the graph node values (`[...][0]`, an uncaught
`IndexError` when no node matches) and produce the segments around it; a
non-tuple entry at an odd position would raise `TypeError` on unpacking. -/
def segmentsOfEntry (G : MonodromyGraph) : CycleEntry → Except Err (List Segment)
  | .sheet _ => .error .typeError
  | .loop bpt rot =>
    match (bptMatches G bpt).head? with
    | none => .error .indexError
    | some idx => .ok (path_around_branch_point G idx rot)

/-- The Python for-loop over a list whose body may raise, collecting one result
per element (exceptions propagate). -/
def forE {α β : Type} (f : α → Except Err β) : List α → Except Err (List β)
  | [] => .ok []
  | a :: as => do
    let b ← f a
    let bs ← forE f as
    pure (b :: bs)

/-- Embedding of `cycle_paths`' inner loop (lines 148–152): the segments of all
`(bpt, rot)` entries of `cycle[1::2]`, concatenated in order. -/
def segmentsOfCycle (G : MonodromyGraph) (cycle : List CycleEntry) :
    Except Err (List Segment) := do
  let blocks ← forE (segmentsOfEntry G) (slice1by2 cycle)
  pure blocks.flatten

/-- Modelled from the spec: the `RiemannSurfacePath` class
(`abelfunctions/riemannsurface_path.py`) is not under `src/`.  §3: it owns an
ordered sequence of path segments plus a start fiber `(x0, full sheet vector
y0)`; this records the data `cycle_paths` passes to its constructor. -/
structure RiemannSurfacePath where
  startX : Cplx
  startY : List Cplx
  segments : List Segment
deriving DecidableEq, Repr

/-- Modelled from the spec: the continued parametrization interface of
`RiemannSurfacePath` (§4.4), which is all `RiemannSurface.integrate` consumes:
`_num_path_segments` and the callable `path(t, dxdt=True)` returning
`((x(t), y-vector(t)), dx/dt)` with the sheet vector analytically continued
from the start fiber. -/
structure TracedPath where
  numSegments : ℕ
  eval : ℚ → (Cplx × List Cplx) × Cplx

/-- Modelled from the spec: the numerical outputs of the collaborator modules
(`monodromy`, `homology`, `singularities.genus`, `differentials`, and the
§4.4 sheet-tracking continuation), none of which are under `src/`, for one
fixed curve `f(x, y)`: the discovery output, the raw homology cycles, the
genus, the holomorphic differential basis (already lambdified to functions of
`(x, y)`), and the continuation turning a segment path into its traced
parametrization. -/
structure CurveData where
  raw_monodromy : MonodromyData
  raw_a_cycles : List (List CycleEntry)
  raw_b_cycles : List (List CycleEntry)
  genus_val : ℕ
  diffs : List (Cplx → Cplx → Cplx)
  trace : RiemannSurfacePath → TracedPath

/-- The identity permutation test on `{0, …, n-1}` sheets. -/
def isIdentityPerm (p : List ℕ) (n : ℕ) : Bool := p == List.range n

/-- Modelled from the spec: `abelfunctions.monodromy.monodromy` is not under
`src/`.  §4.1's discovery contract, with §7's ConsistencyError made fatal when
the composed local monodromy permutations (in canonical order) are not the
identity permutation on sheet indices (§3's invariant, §8's consistency
check). -/
def monodromy_module (c : CurveData) : Except Err MonodromyData :=
  let d := c.raw_monodromy
  if isIdentityPerm (composeAll d.mon d.base_sheets.length) d.base_sheets.length
  then .ok d
  else .error .consistency

/-- Modelled from the spec: `abelfunctions.singularities.genus` is not under
`src/`; the computed genus of the curve. -/
def genus_module (c : CurveData) : ℕ := c.genus_val

/-- Modelled from the spec: `abelfunctions.differentials.differentials` is not
under `src/`; the basis of holomorphic differentials of the curve. -/
def differentials_module (c : CurveData) : List (Cplx → Cplx → Cplx) := c.diffs

/-- Modelled from the spec: `abelfunctions.homology.homology` is not under
`src/`.  §4.5's contract `build(graph, permutations) -> (a_cycles, b_cycles)`:
two equal-length ordered sequences of c-cycles of length = genus (§3), with
§4.5's fatal internal-consistency error when the basis size disagrees with
the computed genus. -/
def homology_module (c : CurveData) :
    Except Err (List (List CycleEntry) × List (List CycleEntry)) :=
  if c.raw_a_cycles.length = c.genus_val ∧ c.raw_b_cycles.length = c.genus_val
  then .ok (c.raw_a_cycles, c.raw_b_cycles)
  else .error .consistency

/-- One iteration of `cycle_paths`' outer loop (lines 140–160): the
`RiemannSurfacePath` built for one cycle — its segments plus the start fiber
`(x0, y0) = (base_point, base_lift)`. -/
def pathOfCycle (m : MonodromyData) (cyc : List CycleEntry) :
    Except Err RiemannSurfacePath := do
  let segs ← segmentsOfCycle m.graph cyc
  pure { startX := m.base_point, startY := m.base_sheets, segments := segs }

/-- Embedding of `RiemannSurface.cycle_paths` (lines 114–162), as the pure
computation its body performs on the curve's data: get the homology cycles,
concatenate `a_cycles + b_cycles`, and for each cycle build the
`RiemannSurfacePath` with the cycle's segments and the start fiber
`(base_point, base_lift)`.  (The body also reads `G.node[0]['root']` into a
local that it never uses afterwards.) -/
def cycle_paths_core (c : CurveData) : Except Err (List RiemannSurfacePath) := do
  let ab ← homology_module c
  let cycles := ab.1 ++ ab.2
  let m ← monodromy_module c
  forE (pathOfCycle m) cycles

/-- `numpy.linspace(a, b, num)`: `num` evenly spaced samples from `a` to `b`
inclusive. -/
def linspace (a b : ℚ) (num : ℕ) : List ℚ :=
  (List.range num).map (fun i => a + (b - a) * i / ((num : ℚ) - 1))

/-- `scipy.integrate.trapz(y, x)` (an alias of `numpy.trapz`): the composite
trapezoid sum `Σᵢ (x[i+1] - x[i]) · (y[i] + y[i+1]) / 2` — the FIRST argument
is the list of sample values `y`, the SECOND the abscissae `x`. -/
def trapz (y x : List Cplx) : Cplx :=
  ((x.zip x.tail).zip (y.zip y.tail)).foldl
    (fun acc p => acc + (p.1.2 - p.1.1) * (p.2.1 + p.2.2) * Cplx.ofRat (1 / 2)) 0

/-- The integrand of `RiemannSurface.integrate` (lines 181–183):
`omega(x(t), y(t)[0]) * dx/dt`, following the base sheet `yi[0]` of the
continuously tracked sheet vector.  (The sheet vector supplied by the
continuation is the full, nonempty fiber; the head default is never reached
for such paths.) -/
def integrand (omega : Cplx → Cplx → Cplx) (path : TracedPath) (t : ℚ) : Cplx :=
  let r := path.eval t
  omega r.1.1 (r.1.2.headD 0) * r.2

/-- Embedding of `RiemannSurface.integrate` (lines 165–196): for each of the
`n = path._num_path_segments` segments, sample the integrand at
`linspace(k/n, (k+1)/n, 128)` and accumulate `scipy.integrate.trapz(tpts,
fpts)` — exactly as written in the source, with `tpts` passed as the first
(`y`) argument and `fpts` as the second (`x`) argument. -/
def RiemannSurface.integrate (omega : Cplx → Cplx → Cplx) (path : TracedPath) : Cplx :=
  let n := path.numSegments
  ((List.range n).map (fun k =>
    let tpts := linspace ((k : ℚ) / n) (((k : ℚ) + 1) / n) 128
    let fpts := tpts.map (integrand omega path)
    trapz (tpts.map Cplx.ofRat) fpts)).foldl (· + ·) 0

/-- The quadrature the specification describes (§4.6): the fixed-subdivision
trapezoidal quadrature of the integrand over each of the path's segments,
i.e. `trapz` applied with the integrand samples as the `y` argument and the
parameter points as the `x` argument. -/
def integrate_quadrature (omega : Cplx → Cplx → Cplx) (path : TracedPath) : Cplx :=
  let n := path.numSegments
  ((List.range n).map (fun k =>
    let tpts := linspace ((k : ℚ) / n) (((k : ℚ) + 1) / n) 128
    let fpts := tpts.map (integrand omega path)
    trapz fpts (tpts.map Cplx.ofRat))).foldl (· + ·) 0

/-- Python list indexing: out-of-range indexing raises `IndexError`. -/
def getOr {α : Type} (l : List α) (i : ℕ) : Except Err α :=
  match l[i]? with
  | some a => .ok a
  | none => .error .indexError

/-- One iteration of `period_matrix`'s inner loop (lines 224–229): the `(i,j)`
entries of `A` and `B` — the integrals of `omega` over `cycles[j]` and
`cycles[j+g]` (each cycle path traced to its parametrization first). -/
def periodEntry (c : CurveData) (cycles : List RiemannSurfacePath)
    (omega : Cplx → Cplx → Cplx) (j : ℕ) : Except Err (Cplx × Cplx) := do
  let pa ← getOr cycles j
  let aij := RiemannSurface.integrate omega (c.trace pa)
  let pb ← getOr cycles (j + genus_module c)
  let bij := RiemannSurface.integrate omega (c.trace pb)
  pure (aij, bij)

/-- One iteration of `period_matrix`'s outer loop (lines 220–232): the rows
`Ai` and `Bi` for the `i`-th differential. -/
def periodRow (c : CurveData) (cycles : List RiemannSurfacePath) (i : ℕ) :
    Except Err (List Cplx × List Cplx) := do
  let omega ← getOr (differentials_module c) i
  let row ← forE (periodEntry c cycles omega) (List.range (genus_module c))
  pure (row.map Prod.fst, row.map Prod.snd)

/-- Embedding of `RiemannSurface.period_matrix` (lines 199–237) as the pure
computation on the curve's data: for each differential index `i < g` and each
cycle-path index `j < g`, `A[i][j]` is `integrate(differentials[i],
cycle_paths[j])` and `B[i][j]` is `integrate(differentials[i],
cycle_paths[j+g])`; Python list indexing out of range raises `IndexError`. -/
def period_matrix_core (c : CurveData) :
    Except Err (List (List Cplx) × List (List Cplx)) := do
  let cycles ← cycle_paths_core c
  let rows ← forE (periodRow c cycles) (List.range (genus_module c))
  pure (rows.map Prod.fst, rows.map Prod.snd)

/-- Embedding of the `RiemannSurface` class: the curve data `f`, `x`, `y`
stored by `__init__` (over arbitrary types `F`, `V` of symbolic expressions
and symbols), the modelled collaborator outputs for that curve, and the
memoization state: the cache of the monodromy computation (modelled from the
spec, §3 Lifecycle / §9: computed on first request and cached for the
surface's lifetime) and the `@cached_function` cache of `cycle_paths`
(`abelfunctions.utilities.cached_function` is not under `src/`; modelled from
the spec's at-most-once memoization). -/
structure RiemannSurface (F V : Type) where
  f : F
  x : V
  y : V
  curve : CurveData
  monodromy_cache : Option (Except Err MonodromyData)
  cycle_paths_cache : Option (Except Err (List RiemannSurfacePath))

/-- Embedding of `RiemannSurface.__init__` (lines 31–34): store `f`, `x`, `y`;
no derived object is computed yet. -/
def RiemannSurface.init {F V : Type} (f : F) (x y : V) (curve : CurveData) :
    RiemannSurface F V :=
  ⟨f, x, y, curve, none, none⟩

/-- Embedding of `RiemannSurface.monodromy` (lines 51–54) together with the
modelled memoization of the underlying module computation.  Returns the
result, the surface state after the call, and the number of fresh
computations performed (0 when the cache is hit). -/
def RiemannSurface.monodromy {F V : Type} (s : RiemannSurface F V) :
    Except Err MonodromyData × RiemannSurface F V × ℕ :=
  match s.monodromy_cache with
  | some r => (r, s, 0)
  | none =>
    let r := monodromy_module s.curve
    (r, { s with monodromy_cache := some r }, 1)

/-- `RiemannSurface.monodromy_graph` (lines 57–60): component 4 of the
monodromy tuple. -/
def RiemannSurface.monodromy_graph {F V : Type} (s : RiemannSurface F V) :
    Except Err MonodromyGraph × RiemannSurface F V × ℕ :=
  let r := s.monodromy
  (r.1.map MonodromyData.graph, r.2.1, r.2.2)

/-- `RiemannSurface.base_point` (lines 63–64): component 0 of the monodromy
tuple. -/
def RiemannSurface.base_point {F V : Type} (s : RiemannSurface F V) :
    Except Err Cplx × RiemannSurface F V × ℕ :=
  let r := s.monodromy
  (r.1.map MonodromyData.base_point, r.2.1, r.2.2)

/-- `RiemannSurface.base_sheets` (lines 67–68): component 1 of the monodromy
tuple. -/
def RiemannSurface.base_sheets {F V : Type} (s : RiemannSurface F V) :
    Except Err (List Cplx) × RiemannSurface F V × ℕ :=
  let r := s.monodromy
  (r.1.map MonodromyData.base_sheets, r.2.1, r.2.2)

/-- `RiemannSurface.base_lift` (lines 71–72): alias of `base_sheets`. -/
def RiemannSurface.base_lift {F V : Type} (s : RiemannSurface F V) :
    Except Err (List Cplx) × RiemannSurface F V × ℕ :=
  s.base_sheets

/-- `RiemannSurface.branch_points` (lines 75–76): component 2 of the monodromy
tuple. -/
def RiemannSurface.branch_points {F V : Type} (s : RiemannSurface F V) :
    Except Err (List Cplx) × RiemannSurface F V × ℕ :=
  let r := s.monodromy
  (r.1.map MonodromyData.branch_points, r.2.1, r.2.2)

/-- `RiemannSurface.monodromy_group` (lines 79–80): component 3 of the
monodromy tuple. -/
def RiemannSurface.monodromy_group {F V : Type} (s : RiemannSurface F V) :
    Except Err (List (List ℕ)) × RiemannSurface F V × ℕ :=
  let r := s.monodromy
  (r.1.map MonodromyData.mon, r.2.1, r.2.2)

/-- `RiemannSurface.homology` (lines 83–84): delegate to the homology module
on the stored curve. -/
def RiemannSurface.homology {F V : Type} (s : RiemannSurface F V) :
    Except Err (List (List CycleEntry) × List (List CycleEntry)) × RiemannSurface F V :=
  (homology_module s.curve, s)

/-- `RiemannSurface.holomorphic_differentials` (lines 87–92). -/
def RiemannSurface.holomorphic_differentials {F V : Type} (s : RiemannSurface F V) :
    List (Cplx → Cplx → Cplx) × RiemannSurface F V :=
  (differentials_module s.curve, s)

/-- `RiemannSurface.differentials` (lines 94–98): alias for
`holomorphic_differentials`. -/
def RiemannSurface.differentials {F V : Type} (s : RiemannSurface F V) :
    List (Cplx → Cplx → Cplx) × RiemannSurface F V :=
  s.holomorphic_differentials

/-- `RiemannSurface.genus` (lines 101–105). -/
def RiemannSurface.genus {F V : Type} (s : RiemannSurface F V) :
    ℕ × RiemannSurface F V :=
  (genus_module s.curve, s)

/-- `RiemannSurface.cycles` (lines 108–111): returns `self.homology()`. -/
def RiemannSurface.cycles {F V : Type} (s : RiemannSurface F V) :
    Except Err (List (List CycleEntry) × List (List CycleEntry)) × RiemannSurface F V :=
  s.homology

/-- Embedding of `RiemannSurfacePoint` (`riemannsurface_point.py` is not under
`src/`): the class records the constructing surface and the coordinates it was
given. -/
structure RiemannSurfacePoint (F V : Type) where
  surface : RiemannSurface F V
  x : Cplx
  y : Cplx

/-- `RiemannSurface.__call__` (lines 39–40): `RiemannSurfacePoint(self, x, y)`. -/
def RiemannSurface.call {F V : Type} (s : RiemannSurface F V) (x0 y0 : Cplx) :
    RiemannSurfacePoint F V × RiemannSurface F V :=
  (⟨s, x0, y0⟩, s)

/-- `RiemannSurface.point` (lines 43–49): `RiemannSurfacePoint(self, x0, y0)`. -/
def RiemannSurface.point {F V : Type} (s : RiemannSurface F V) (x0 y0 : Cplx) :
    RiemannSurfacePoint F V × RiemannSurface F V :=
  (⟨s, x0, y0⟩, s)

/-- Embedding of the memoized `RiemannSurface.cycle_paths` (lines 114–162): on
a cache miss the body runs `cycle_paths_core` (whose calls to
`self.monodromy_graph()`, `self.base_point()` and `self.base_lift()` populate
the monodromy cache) and the `@cached_function` wrapper stores the result. -/
def RiemannSurface.cycle_paths {F V : Type} (s : RiemannSurface F V) :
    Except Err (List RiemannSurfacePath) × RiemannSurface F V :=
  match s.cycle_paths_cache with
  | some r => (r, s)
  | none =>
    let r := cycle_paths_core s.curve
    (r, { s with monodromy_cache := some (monodromy_module s.curve),
                 cycle_paths_cache := some r })

/-- The method call `RiemannSurface.integrate` (lines 165–196) as a state
transformer: the method reads none of the surface's state beyond its
arguments and mutates nothing. -/
def RiemannSurface.integrate_op {F V : Type} (s : RiemannSurface F V)
    (omega : Cplx → Cplx → Cplx) (path : TracedPath) :
    Cplx × RiemannSurface F V :=
  (RiemannSurface.integrate omega path, s)

/-- Embedding of `RiemannSurface.period_matrix` (lines 199–237): the body
calls `self.cycle_paths()` (updating both caches on a miss) and then computes
the matrices of `period_matrix_core`. -/
def RiemannSurface.period_matrix {F V : Type} (s : RiemannSurface F V) :
    Except Err (List (List Cplx) × List (List Cplx)) × RiemannSurface F V :=
  let cp := s.cycle_paths
  (period_matrix_core s.curve, cp.2)

/-- Embedding of `RiemannSurface.show_paths` (lines 240–244): reads the
monodromy graph (possibly populating the monodromy cache) and hands it to the
external plotting collaborator. -/
def RiemannSurface.show_paths {F V : Type} (s : RiemannSurface F V) :
    Unit × RiemannSurface F V :=
  let r := s.monodromy_graph
  ((), r.2.1)

/-- Example node data for the spec's §8 genus-1 hyperelliptic scenario
`y² = (x-2)(x-1)(x+1)(x+2)`: branch points `{-2, -1, 1, 2}`, base point `-3`
on the real axis below them, two sheets, and a path-shaped spanning tree
`0 - 1 - 2 - 3`. -/
def exGraph : MonodromyGraph where
  nodes := [(0, ⟨⟨-2, 0⟩⟩), (1, ⟨⟨-1, 0⟩⟩), (2, ⟨⟨1, 0⟩⟩), (3, ⟨⟨2, 0⟩⟩)]
  basepoint := ⟨-3, 0⟩
  baselift := [⟨3, 0⟩, ⟨-3, 0⟩]
  root := 0
  parent := fun k => match k with
    | 1 => some 0
    | 2 => some 1
    | 3 => some 2
    | _ => none

/-- Example discovery output for the hyperelliptic scenario: each branch point
transposes the two sheets, and the four transpositions compose to the
identity. -/
def exMon : MonodromyData where
  branch_points := [⟨-2, 0⟩, ⟨-1, 0⟩, ⟨1, 0⟩, ⟨2, 0⟩]
  mon := [[1, 0], [1, 0], [1, 0], [1, 0]]
  graph := exGraph

/-- An example a-cycle: on sheet 0, once around the branch point `-2`. -/
def exCycleA : List CycleEntry := [.sheet 0, .loop ⟨-2, 0⟩ 1]

/-- An example b-cycle: on sheet 0, once around the branch point `-1`. -/
def exCycleB : List CycleEntry := [.sheet 0, .loop ⟨-1, 0⟩ 1]

/-- Example curve data for the hyperelliptic scenario; the continuation oracle
traces every path to a parametrization with no segments, so that every example
integral evaluates to `0`. -/
def exCurve : CurveData where
  raw_monodromy := exMon
  raw_a_cycles := [exCycleA]
  raw_b_cycles := [exCycleB]
  genus_val := 1
  diffs := [fun _ _ => Cplx.ofRat 2]
  trace := fun _ => ⟨0, fun _ => ((0, [0]), 0)⟩

/-- The cycle path the example curve's a-cycle produces: out to the midpoint
`-5/2` next to the branch point `-2`, once around it, and back. -/
def exPathA : RiemannSurfacePath :=
  { startX := ⟨-3, 0⟩
    startY := [⟨3, 0⟩, ⟨-3, 0⟩]
    segments := [⟨⟨-3, 0⟩, ⟨-5/2, 0⟩⟩, ⟨⟨-5/2, 0⟩, ⟨-3/2, 0⟩⟩,
                 ⟨⟨-3/2, 0⟩, ⟨-5/2, 0⟩⟩, ⟨⟨-5/2, 0⟩, ⟨-3, 0⟩⟩] }

/-- The cycle path the example curve's b-cycle produces: along the tree to the
midpoint `-3/2` next to the branch point `-1`, once around it, and back. -/
def exPathB : RiemannSurfacePath :=
  { startX := ⟨-3, 0⟩
    startY := [⟨3, 0⟩, ⟨-3, 0⟩]
    segments := [⟨⟨-3, 0⟩, ⟨-2, 0⟩⟩, ⟨⟨-2, 0⟩, ⟨-3/2, 0⟩⟩, ⟨⟨-3/2, 0⟩, ⟨-1/2, 0⟩⟩,
                 ⟨⟨-1/2, 0⟩, ⟨-3/2, 0⟩⟩, ⟨⟨-3/2, 0⟩, ⟨-2, 0⟩⟩, ⟨⟨-2, 0⟩, ⟨-3, 0⟩⟩] }

/-- A variant of the example curve whose a-cycle names the branch point `100`,
which is not within `1e-15` of any monodromy-graph node value. -/
def exCurveBad : CurveData :=
  { exCurve with raw_a_cycles := [[.sheet 0, .loop ⟨100, 0⟩ 1]] }

/-- A graph with two distinct nodes holding the same branch-point value `5`,
so that both match a lookup of `5` within `1e-15`. -/
def exGraphDup : MonodromyGraph where
  nodes := [(7, ⟨⟨5, 0⟩⟩), (8, ⟨⟨5, 0⟩⟩)]
  basepoint := 0
  baselift := []
  root := 7
  parent := fun _ => none

/-- The surface state `t` carries the same curve fields `f`, `x`, `y` as
`s`. -/
def preservesCurve {F V : Type} (s t : RiemannSurface F V) : Prop :=
  t.f = s.f ∧ t.x = s.x ∧ t.y = s.y

/-! ## Helper lemmas about the loop combinator `forE` -/

theorem forE_ok_length {α β : Type} (f : α → Except Err β) (l : List α) (r : List β)
    (h : forE f l = .ok r) : r.length = l.length := by
  induction l generalizing r with
  | nil => simp [forE] at h; simp [← h]
  | cons a as ih =>
    simp only [forE, bind, Except.bind] at h
    cases hfa : f a with
    | error e => rw [hfa] at h; simp at h
    | ok b =>
      rw [hfa] at h
      cases hrest : forE f as with
      | error e => rw [hrest] at h; simp [pure, Except.pure] at h
      | ok bs =>
        rw [hrest] at h
        simp [pure, Except.pure] at h
        subst h
        simp [ih bs hrest]

theorem forE_ok_getElem? {α β : Type} (f : α → Except Err β) (l : List α) (r : List β)
    (h : forE f l = .ok r) (i : ℕ) (a : α) (ha : l[i]? = some a) :
    ∃ b, f a = .ok b ∧ r[i]? = some b := by
  induction l generalizing r i with
  | nil => simp at ha
  | cons x xs ih =>
    simp only [forE, bind, Except.bind] at h
    cases hfa : f x with
    | error e => rw [hfa] at h; simp at h
    | ok b =>
      rw [hfa] at h
      cases hrest : forE f xs with
      | error e => rw [hrest] at h; simp [pure, Except.pure] at h
      | ok bs =>
        rw [hrest] at h
        simp [pure, Except.pure] at h
        subst h
        cases i with
        | zero => simp at ha; subst ha; exact ⟨b, hfa, by simp⟩
        | succ n =>
          simp only [List.getElem?_cons_succ] at ha ⊢
          exact ih bs hrest n ha

theorem forE_ok_of_mem {α β : Type} (f : α → Except Err β) (l : List α) (r : List β)
    (h : forE f l = .ok r) (a : α) (ha : a ∈ l) : ∃ b, f a = .ok b := by
  induction l generalizing r with
  | nil => simp at ha
  | cons x xs ih =>
    simp only [forE, bind, Except.bind] at h
    cases hfa : f x with
    | error e => rw [hfa] at h; simp at h
    | ok b =>
      rw [hfa] at h
      cases hrest : forE f xs with
      | error e => rw [hrest] at h; simp [pure, Except.pure] at h
      | ok bs =>
        rcases List.mem_cons.mp ha with rfl | hmem
        · exact ⟨b, hfa⟩
        · exact ih bs hrest hmem

theorem forE_error_source {α β : Type} (f : α → Except Err β) (l : List α) (e : Err)
    (h : forE f l = .error e) : ∃ a ∈ l, f a = .error e := by
  induction l with
  | nil => simp [forE] at h
  | cons x xs ih =>
    simp only [forE, bind, Except.bind] at h
    cases hfa : f x with
    | error e' =>
      rw [hfa] at h
      simp at h
      exact ⟨x, List.mem_cons_self x xs, by rw [hfa, h]⟩
    | ok b =>
      rw [hfa] at h
      cases hrest : forE f xs with
      | error e' =>
        rw [hrest] at h
        simp at h
        subst h
        obtain ⟨a, hmem, hfa'⟩ := ih hrest
        exact ⟨a, List.mem_cons_of_mem x hmem, hfa'⟩
      | ok bs => rw [hrest] at h; simp [pure, Except.pure] at h

theorem forE_error_of_mem {α β : Type} (f : α → Except Err β) (l : List α) (a : α)
    (ha : a ∈ l) (e : Err) (hfa : f a = .error e) : ∃ e', forE f l = .error e' := by
  cases h : forE f l with
  | error e' => exact ⟨e', rfl⟩
  | ok r =>
    obtain ⟨b, hb⟩ := forE_ok_of_mem f l r h a ha
    rw [hfa] at hb
    simp at hb

/-! ## Path boundary predicate -/

/-- A segment chain that (when nonempty) departs from and returns to the
point `b`. -/
def BeginsEndsAt (b : Cplx) (segs : List Segment) : Prop :=
  (∀ s, segs.head? = some s → s.start = b) ∧ (∀ s, segs.getLast? = some s → s.stop = b)

theorem beginsEndsAt_nil (b : Cplx) : BeginsEndsAt b [] := by
  constructor <;> intro s hs <;> simp at hs

theorem beginsEndsAt_append (b : Cplx) (l1 l2 : List Segment)
    (h1 : BeginsEndsAt b l1) (h2 : BeginsEndsAt b l2) : BeginsEndsAt b (l1 ++ l2) := by
  constructor
  · intro s hs
    rw [List.head?_append] at hs
    cases hl : l1.head? with
    | none => rw [hl] at hs; simp at hs; exact h2.1 s hs
    | some t => rw [hl] at hs; simp at hs; subst hs; exact h1.1 t hl
  · intro s hs
    rw [List.getLast?_append] at hs
    cases hl : l2.getLast? with
    | none => rw [hl] at hs; simp at hs; exact h1.2 s hs
    | some t => rw [hl] at hs; simp at hs; subst hs; exact h2.2 t hl

theorem beginsEndsAt_flatten (b : Cplx) (blocks : List (List Segment))
    (h : ∀ bl ∈ blocks, BeginsEndsAt b bl) : BeginsEndsAt b blocks.flatten := by
  induction blocks with
  | nil => simpa using beginsEndsAt_nil b
  | cons x xs ih =>
    rw [List.flatten_cons]
    exact beginsEndsAt_append b x xs.flatten (h x (List.mem_cons_self x xs))
      (ih (fun bl hbl => h bl (List.mem_cons_of_mem x hbl)))

/-- The segments around a branch point (modelled from §4.3) depart from and
return to the graph's base point. -/
theorem path_around_branch_point_boundary (G : MonodromyGraph) (i : ℕ) (n : ℤ) :
    BeginsEndsAt G.basepoint (path_around_branch_point G i n) := by
  unfold path_around_branch_point
  split
  · exact beginsEndsAt_nil _
  · obtain ⟨u, t, hshape⟩ : ∃ u t, approachPoints G i = G.basepoint :: u :: t := by
      unfold approachPoints
      cases h : approachInterior G i with
      | nil => exact ⟨adjacentPoint G i, [], rfl⟩
      | cons v vs => exact ⟨v, vs ++ [adjacentPoint G i], rfl⟩
    have happr : segmentsThrough (approachPoints G i) =
        ⟨G.basepoint, u⟩ :: segmentsThrough (u :: t) := by
      rw [hshape]; rfl
    rw [happr]
    constructor
    · intro s hs
      simp only [List.cons_append, List.head?_cons] at hs
      cases hs
      rfl
    · intro s hs
      have hlast : ((⟨G.basepoint, u⟩ :: segmentsThrough (u :: t)).reverse.map
          Segment.flip).getLast? = some ⟨u, G.basepoint⟩ := by
        rw [List.getLast?_map, List.getLast?_reverse]
        rfl
      rw [List.getLast?_append, hlast] at hs
      simp at hs
      subst hs
      rfl

theorem forE_mem_source {α β : Type} (f : α → Except Err β) (l : List α) (r : List β)
    (h : forE f l = .ok r) (b : β) (hb : b ∈ r) : ∃ a ∈ l, f a = .ok b := by
  induction l generalizing r with
  | nil => simp [forE] at h; subst h; simp at hb
  | cons x xs ih =>
    simp only [forE, bind, Except.bind] at h
    cases hfa : f x with
    | error e => rw [hfa] at h; simp at h
    | ok b' =>
      rw [hfa] at h
      cases hrest : forE f xs with
      | error e => rw [hrest] at h; simp [pure, Except.pure] at h
      | ok bs =>
        rw [hrest] at h
        simp [pure, Except.pure] at h
        subst h
        rcases List.mem_cons.mp hb with rfl | hmem
        · exact ⟨x, List.mem_cons_self x xs, hfa⟩
        · obtain ⟨a, hmem', hfa'⟩ := ih bs hrest hmem
          exact ⟨a, List.mem_cons_of_mem x hmem', hfa'⟩

/-- A successful per-entry result is always a branch-point path. -/
theorem segmentsOfEntry_ok_shape (G : MonodromyGraph) (e : CycleEntry) (bl : List Segment)
    (h : segmentsOfEntry G e = .ok bl) :
    ∃ idx rot, bl = path_around_branch_point G idx rot := by
  cases e with
  | sheet s => simp [segmentsOfEntry] at h
  | loop bpt rot =>
    simp only [segmentsOfEntry] at h
    cases hm : (bptMatches G bpt).head? with
    | none => rw [hm] at h; simp at h
    | some idx =>
      rw [hm] at h
      simp at h
      exact ⟨idx, rot, h.symm⟩

/-- Successful cycle segments decompose into per-entry blocks. -/
theorem segmentsOfCycle_ok (G : MonodromyGraph) (cyc : List CycleEntry)
    (segs : List Segment) (h : segmentsOfCycle G cyc = .ok segs) :
    ∃ blocks, forE (segmentsOfEntry G) (slice1by2 cyc) = .ok blocks ∧
      segs = blocks.flatten := by
  simp only [segmentsOfCycle, bind, Except.bind] at h
  cases hb : forE (segmentsOfEntry G) (slice1by2 cyc) with
  | error e => rw [hb] at h; simp at h
  | ok blocks =>
    rw [hb] at h
    simp [pure, Except.pure] at h
    exact ⟨blocks, rfl, h.symm⟩

/-- The segments of a successfully built cycle depart from and return to the
graph's base point. -/
theorem segmentsOfCycle_boundary (G : MonodromyGraph) (cyc : List CycleEntry)
    (segs : List Segment) (h : segmentsOfCycle G cyc = .ok segs) :
    BeginsEndsAt G.basepoint segs := by
  obtain ⟨blocks, hbl, rfl⟩ := segmentsOfCycle_ok G cyc segs h
  refine beginsEndsAt_flatten _ _ (fun bl hmem => ?_)
  obtain ⟨e, _, he⟩ := forE_mem_source _ _ _ hbl bl hmem
  obtain ⟨idx, rot, rfl⟩ := segmentsOfEntry_ok_shape G e bl he
  exact path_around_branch_point_boundary G idx rot

/-- A successful per-cycle path records the start fiber and the cycle's
segments. -/
theorem pathOfCycle_ok (m : MonodromyData) (cyc : List CycleEntry)
    (p : RiemannSurfacePath) (h : pathOfCycle m cyc = .ok p) :
    ∃ segs, segmentsOfCycle m.graph cyc = .ok segs ∧
      p = ⟨m.base_point, m.base_sheets, segs⟩ := by
  simp only [pathOfCycle, bind, Except.bind] at h
  cases hs : segmentsOfCycle m.graph cyc with
  | error e => rw [hs] at h; simp at h
  | ok segs =>
    rw [hs] at h
    simp [pure, Except.pure] at h
    exact ⟨segs, rfl, h.symm⟩

/-- Decomposition of a successful `cycle_paths` computation into its module
calls and its per-cycle loop. -/
theorem cycle_paths_core_ok (c : CurveData) (ps : List RiemannSurfacePath)
    (h : cycle_paths_core c = .ok ps) :
    ∃ acyc bcyc m, homology_module c = .ok (acyc, bcyc) ∧
      monodromy_module c = .ok m ∧
      forE (pathOfCycle m) (acyc ++ bcyc) = .ok ps := by
  simp only [cycle_paths_core, bind, Except.bind] at h
  cases hab : homology_module c with
  | error e => rw [hab] at h; simp at h
  | ok ab =>
    obtain ⟨acyc, bcyc⟩ := ab
    rw [hab] at h
    cases hm : monodromy_module c with
    | error e => rw [hm] at h; simp at h
    | ok m =>
      rw [hm] at h
      exact ⟨acyc, bcyc, m, rfl, rfl, h⟩

/-! ## Further helper lemmas -/

theorem filter_head?_of_first {α : Type} (p : α → Bool) (l : List α) (i : ℕ) (a : α)
    (ha : l[i]? = some a) (hpa : p a = true)
    (hbefore : ∀ (j : ℕ) (b : α), j < i → l[j]? = some b → p b = false) :
    (l.filter p).head? = some a := by
  induction l generalizing i with
  | nil => simp at ha
  | cons x xs ih =>
    cases i with
    | zero =>
      simp at ha
      subst ha
      rw [List.filter_cons_of_pos hpa]
      rfl
    | succ n =>
      have hx : p x = false := hbefore 0 x (Nat.succ_pos n) (by simp)
      rw [List.filter_cons_of_neg (by simp [hx])]
      refine ih n (by simpa using ha) (fun j b hj hb => ?_)
      exact hbefore (j + 1) b (by omega) (by simpa using hb)

theorem homology_module_ok (c : CurveData) (acyc bcyc : List (List CycleEntry))
    (h : homology_module c = .ok (acyc, bcyc)) :
    acyc.length = genus_module c ∧ bcyc.length = genus_module c := by
  unfold homology_module at h
  split at h
  · rename_i hc
    simp at h
    obtain ⟨h1, h2⟩ := h
    subst h1
    subst h2
    exact ⟨hc.1, hc.2⟩
  · simp at h

theorem getOr_ok {α : Type} (l : List α) (i : ℕ) (a : α) (h : getOr l i = .ok a) :
    l[i]? = some a := by
  unfold getOr at h
  cases hl : l[i]? with
  | none => rw [hl] at h; simp at h
  | some b => rw [hl] at h; simp at h; rw [h]

theorem periodEntry_ok (c : CurveData) (cycles : List RiemannSurfacePath)
    (omega : Cplx → Cplx → Cplx) (j : ℕ) (ab : Cplx × Cplx)
    (h : periodEntry c cycles omega j = .ok ab) :
    ∃ pa pb, cycles[j]? = some pa ∧ cycles[j + genus_module c]? = some pb ∧
      ab = (RiemannSurface.integrate omega (c.trace pa),
            RiemannSurface.integrate omega (c.trace pb)) := by
  simp only [periodEntry, bind, Except.bind] at h
  cases hpa : getOr cycles j with
  | error e => rw [hpa] at h; simp at h
  | ok pa =>
    rw [hpa] at h
    cases hpb : getOr cycles (j + genus_module c) with
    | error e => rw [hpb] at h; simp at h
    | ok pb =>
      rw [hpb] at h
      simp [pure, Except.pure] at h
      exact ⟨pa, pb, getOr_ok _ _ _ hpa, getOr_ok _ _ _ hpb, h.symm⟩

theorem periodRow_ok (c : CurveData) (cycles : List RiemannSurfacePath) (i : ℕ)
    (r : List Cplx × List Cplx) (h : periodRow c cycles i = .ok r) :
    ∃ omega row, (differentials_module c)[i]? = some omega ∧
      forE (periodEntry c cycles omega) (List.range (genus_module c)) = .ok row ∧
      r = (row.map Prod.fst, row.map Prod.snd) := by
  simp only [periodRow, bind, Except.bind] at h
  split at h
  · simp at h
  · rename_i omega hw
    split at h
    · simp at h
    · rename_i row hrow
      simp [pure, Except.pure] at h
      exact ⟨omega, row, getOr_ok _ _ _ hw, hrow, h.symm⟩

theorem period_matrix_core_ok (c : CurveData) (A B : List (List Cplx))
    (h : period_matrix_core c = .ok (A, B)) :
    ∃ cycles rows, cycle_paths_core c = .ok cycles ∧
      forE (periodRow c cycles) (List.range (genus_module c)) = .ok rows ∧
      A = rows.map Prod.fst ∧ B = rows.map Prod.snd := by
  simp only [period_matrix_core, bind, Except.bind] at h
  split at h
  · simp at h
  · rename_i cycles hc
    split at h
    · simp at h
    · rename_i rows hrows
      simp [pure, Except.pure] at h
      exact ⟨cycles, rows, hc, hrows, h.1.symm, h.2.symm⟩

theorem segmentsOfEntry_noMatch (G : MonodromyGraph) (bpt : Cplx) (rot : ℤ)
    (h : bptMatches G bpt = []) :
    segmentsOfEntry G (.loop bpt rot) = .error .indexError := by
  simp [segmentsOfEntry, h]

theorem segmentsOfEntry_loop_error (G : MonodromyGraph) (bpt : Cplx) (rot : ℤ) (e : Err)
    (h : segmentsOfEntry G (.loop bpt rot) = .error e) : e = .indexError := by
  simp only [segmentsOfEntry] at h
  cases hm : (bptMatches G bpt).head? with
  | none => rw [hm] at h; simp at h; exact h.symm
  | some idx => rw [hm] at h; simp at h

theorem segmentsOfCycle_error_of (G : MonodromyGraph) (cyc : List CycleEntry) (e : Err)
    (h : forE (segmentsOfEntry G) (slice1by2 cyc) = .error e) :
    segmentsOfCycle G cyc = .error e := by
  simp [segmentsOfCycle, bind, Except.bind, h]

theorem segmentsOfCycle_error_kind (G : MonodromyGraph) (cyc : List CycleEntry) (e : Err)
    (hloop : ∀ x ∈ slice1by2 cyc, x.isLoop = true)
    (h : segmentsOfCycle G cyc = .error e) : e = .indexError := by
  simp only [segmentsOfCycle, bind, Except.bind] at h
  cases hfe : forE (segmentsOfEntry G) (slice1by2 cyc) with
  | ok blocks => rw [hfe] at h; simp [pure, Except.pure] at h
  | error e' =>
    rw [hfe] at h
    simp at h
    subst h
    obtain ⟨x, hx, hex⟩ := forE_error_source _ _ _ hfe
    cases x with
    | sheet s => have := hloop _ hx; simp [CycleEntry.isLoop] at this
    | loop bpt rot => exact segmentsOfEntry_loop_error G bpt rot e' hex

theorem pathOfCycle_error_of (m : MonodromyData) (cyc : List CycleEntry) (e : Err)
    (h : segmentsOfCycle m.graph cyc = .error e) :
    pathOfCycle m cyc = .error e := by
  simp [pathOfCycle, bind, Except.bind, h]

theorem pathOfCycle_error_kind (m : MonodromyData) (cyc : List CycleEntry) (e : Err)
    (hloop : ∀ x ∈ slice1by2 cyc, x.isLoop = true)
    (h : pathOfCycle m cyc = .error e) : e = .indexError := by
  simp only [pathOfCycle, bind, Except.bind] at h
  cases hs : segmentsOfCycle m.graph cyc with
  | ok segs => rw [hs] at h; simp [pure, Except.pure] at h
  | error e' =>
    rw [hs] at h
    simp at h
    subst h
    exact segmentsOfCycle_error_kind m.graph cyc e' hloop hs

theorem cycle_paths_core_eq_forE (c : CurveData) (acyc bcyc : List (List CycleEntry))
    (m : MonodromyData) (hab : homology_module c = .ok (acyc, bcyc))
    (hm : monodromy_module c = .ok m) :
    cycle_paths_core c = forE (pathOfCycle m) (acyc ++ bcyc) := by
  simp [cycle_paths_core, bind, Except.bind, hab, hm]

/-! ## Claim theorems -/

set_option maxRecDepth 10000

/-- C8: for every pair of cycles whose entries at odd positions (the
`(branch point, rotation count)` pairs, i.e. the slice `cycle[1::2]`) are
equal, `cycle_paths` constructs identical path segment sequences for both,
regardless of the sheet indices stored at even positions: the constructed
x-plane path depends only on the branch-point/winding data. -/
theorem claim_C8_segments_ignore_sheets (G : MonodromyGraph)
    (c1 c2 : List CycleEntry) (h : slice1by2 c1 = slice1by2 c2) :
    segmentsOfCycle G c1 = segmentsOfCycle G c2 := by
  unfold segmentsOfCycle
  rw [h]

/-- Witness for C8: two cycles differing in their sheet entries (positions
0 and 2) but with the same `(branch point, rotation)` entries produce exactly
the same segment list. -/
theorem claim_C8_witness :
    ([CycleEntry.sheet 0, .loop ⟨-2, 0⟩ 1, .sheet 1] : List CycleEntry) ≠
      [CycleEntry.sheet 5, .loop ⟨-2, 0⟩ 1, .sheet 0] ∧
    segmentsOfCycle exGraph [CycleEntry.sheet 0, .loop ⟨-2, 0⟩ 1, .sheet 1] =
      segmentsOfCycle exGraph [CycleEntry.sheet 5, .loop ⟨-2, 0⟩ 1, .sheet 0] :=
  ⟨by simp, claim_C8_segments_ignore_sheets exGraph _ _ rfl⟩

/-- C10: the public aliases agree exactly with the operations they alias:
`differentials()` returns the same value as `holomorphic_differentials()`,
`base_lift()` the same as `base_sheets()`, `cycles()` the same as
`homology()`, and `point(x0, y0)` constructs the same `RiemannSurfacePoint`
as calling the surface directly as `surface(x0, y0)`. -/
theorem claim_C10_aliases {F V : Type} (s : RiemannSurface F V) (x0 y0 : Cplx) :
    s.differentials = s.holomorphic_differentials ∧
    s.base_lift = s.base_sheets ∧
    s.cycles = s.homology ∧
    s.point x0 y0 = s.call x0 y0 :=
  ⟨rfl, rfl, rfl, rfl⟩

/-- C2 (code bug): `RiemannSurface.integrate` passes its arguments to
`scipy.integrate.trapz(tpts, fpts)` in the wrong order — `trapz`'s first
parameter is the list of sample values `y` and its second the abscissae `x` —
so it computes `Σ (f[i+1]-f[i])·(t[i]+t[i+1])/2` instead of the trapezoidal
quadrature `Σ (t[i+1]-t[i])·(f[i]+f[i+1])/2` of the integrand.  On a
one-segment path whose integrand is constantly `2` the code returns `0`,
while the trapezoidal quadrature of the integrand (the documented intent,
`integrate_quadrature`) returns `2`. -/
theorem claim_C2_trapz_swapped :
    RiemannSurface.integrate (fun _ _ => Cplx.ofRat 2) ⟨1, fun _ => ((0, [0]), 1)⟩ = 0 ∧
    integrate_quadrature (fun _ _ => Cplx.ofRat 2) ⟨1, fun _ => ((0, [0]), 1)⟩ =
      Cplx.ofRat 2 ∧
    (0 : Cplx) ≠ Cplx.ofRat 2 := by
  refine ⟨?_, ?_, ?_⟩
  · with_unfolding_all decide
  · with_unfolding_all decide
  · with_unfolding_all decide

/-- C4: for every surface produced from a valid curve (one the modelled
monodromy discovery accepts), composing the local monodromy permutations of
all branch points returned by `monodromy_group()`, in canonical order,
yields the identity permutation on sheet indices. -/
theorem claim_C4_monodromy_identity {F V : Type} (f0 : F) (x0 y0 : V)
    (c : CurveData) (ms : List (List ℕ)) (ys : List Cplx)
    (hm : (RiemannSurface.init f0 x0 y0 c).monodromy_group.1 = .ok ms)
    (hy : (RiemannSurface.init f0 x0 y0 c).base_sheets.1 = .ok ys) :
    composeAll ms ys.length = List.range ys.length := by
  simp only [RiemannSurface.init, RiemannSurface.monodromy_group,
    RiemannSurface.base_sheets, RiemannSurface.monodromy] at hm hy
  cases hcheck : isIdentityPerm
      (composeAll c.raw_monodromy.mon c.raw_monodromy.base_sheets.length)
      c.raw_monodromy.base_sheets.length with
  | false => simp [monodromy_module, hcheck, Except.map] at hm
  | true =>
    simp [monodromy_module, hcheck, Except.map] at hm hy
    subst hm
    subst hy
    simpa [isIdentityPerm] using hcheck

/-- Witness for C4: the example hyperelliptic curve's four sheet
transpositions compose to the identity permutation on its two sheets. -/
theorem claim_C4_witness :
    composeAll exMon.mon exMon.base_sheets.length =
      List.range exMon.base_sheets.length :=
  claim_C4_monodromy_identity (F := Unit) (V := Unit) () () () exCurve
    exMon.mon exMon.base_sheets (by with_unfolding_all rfl) (by with_unfolding_all rfl)

/-- C3: calling the monodromy computation twice on the same surface returns
identical memoized results — equal values and an unchanged surface state, not
merely close values — and performs at most one fresh computation across both
calls (the second call always hits the cache); likewise each derived accessor
(`monodromy_graph`, `base_point`, `base_sheets`, `branch_points`,
`monodromy_group`) returns the identical result on a repeated call without
recomputing. -/
theorem claim_C3_monodromy_memoized {F V : Type} (s : RiemannSurface F V) :
    (s.monodromy.2.1.monodromy.1 = s.monodromy.1 ∧
      s.monodromy.2.1.monodromy.2.1 = s.monodromy.2.1 ∧
      s.monodromy.2.1.monodromy.2.2 = 0 ∧
      s.monodromy.2.2 + s.monodromy.2.1.monodromy.2.2 ≤ 1) ∧
    (s.monodromy_graph.2.1.monodromy_graph.1 = s.monodromy_graph.1 ∧
      s.monodromy_graph.2.1.monodromy_graph.2.1 = s.monodromy_graph.2.1 ∧
      s.monodromy_graph.2.1.monodromy_graph.2.2 = 0) ∧
    (s.base_point.2.1.base_point.1 = s.base_point.1 ∧
      s.base_point.2.1.base_point.2.1 = s.base_point.2.1 ∧
      s.base_point.2.1.base_point.2.2 = 0) ∧
    (s.base_sheets.2.1.base_sheets.1 = s.base_sheets.1 ∧
      s.base_sheets.2.1.base_sheets.2.1 = s.base_sheets.2.1 ∧
      s.base_sheets.2.1.base_sheets.2.2 = 0) ∧
    (s.branch_points.2.1.branch_points.1 = s.branch_points.1 ∧
      s.branch_points.2.1.branch_points.2.1 = s.branch_points.2.1 ∧
      s.branch_points.2.1.branch_points.2.2 = 0) ∧
    (s.monodromy_group.2.1.monodromy_group.1 = s.monodromy_group.1 ∧
      s.monodromy_group.2.1.monodromy_group.2.1 = s.monodromy_group.2.1 ∧
      s.monodromy_group.2.1.monodromy_group.2.2 = 0) := by
  cases h : s.monodromy_cache <;>
    simp [RiemannSurface.monodromy, RiemannSurface.monodromy_graph,
      RiemannSurface.base_point, RiemannSurface.base_sheets,
      RiemannSurface.branch_points, RiemannSurface.monodromy_group, h]

/-- C7: every operation of the surface leaves the stored curve `f` and its
variables `x` and `y` unchanged: they are set at construction (`__init__`)
and no operation (`monodromy`, `homology`, `genus`, `differentials`,
`holomorphic_differentials`, `cycle_paths`, `integrate`, `period_matrix`,
`point`, the direct call, `cycles`, `show_paths`) mutates them — even the
ones that do update the surface's memoization state. -/
theorem claim_C7_curve_immutable {F V : Type} (s : RiemannSurface F V)
    (f0 : F) (x0 y0 : V) (c0 : CurveData) (w : Cplx → Cplx → Cplx)
    (p : TracedPath) (zx zy : Cplx) :
    ((RiemannSurface.init f0 x0 y0 c0).f = f0 ∧
      (RiemannSurface.init f0 x0 y0 c0).x = x0 ∧
      (RiemannSurface.init f0 x0 y0 c0).y = y0) ∧
    preservesCurve s s.monodromy.2.1 ∧
    preservesCurve s s.homology.2 ∧
    preservesCurve s s.genus.2 ∧
    preservesCurve s s.differentials.2 ∧
    preservesCurve s s.holomorphic_differentials.2 ∧
    preservesCurve s s.cycle_paths.2 ∧
    preservesCurve s (s.integrate_op w p).2 ∧
    preservesCurve s s.period_matrix.2 ∧
    preservesCurve s (s.point zx zy).2 ∧
    preservesCurve s (s.call zx zy).2 ∧
    preservesCurve s s.cycles.2 ∧
    preservesCurve s s.show_paths.2 := by
  refine ⟨⟨rfl, rfl, rfl⟩, ?_, ?_, ?_, ?_, ?_, ?_, ?_, ?_, ?_, ?_, ?_, ?_⟩ <;>
    cases h : s.monodromy_cache <;>
    cases h2 : s.cycle_paths_cache <;>
    simp [preservesCurve, RiemannSurface.monodromy, RiemannSurface.homology,
      RiemannSurface.genus, RiemannSurface.differentials,
      RiemannSurface.holomorphic_differentials, RiemannSurface.cycle_paths,
      RiemannSurface.integrate_op, RiemannSurface.period_matrix,
      RiemannSurface.point, RiemannSurface.call, RiemannSurface.cycles,
      RiemannSurface.show_paths, RiemannSurface.monodromy_graph, h, h2]

/-- C6: every `RiemannSurfacePath` constructed by `cycle_paths` starts at the
fiber `(base_point, base_sheets)`: its start point `x0` is the surface's base
point and its start sheet vector `y0` is the full ordered list of base
sheets; moreover its segment chain departs from and returns to the base
point. -/
theorem claim_C6_start_fiber (c : CurveData) (ps : List RiemannSurfacePath)
    (hps : cycle_paths_core c = .ok ps) :
    ∃ m, monodromy_module c = .ok m ∧
      ∀ p ∈ ps, p.startX = m.base_point ∧ p.startY = m.base_sheets ∧
        BeginsEndsAt m.base_point p.segments := by
  obtain ⟨acyc, bcyc, m, hab, hm, hfe⟩ := cycle_paths_core_ok c ps hps
  refine ⟨m, hm, fun p hp => ?_⟩
  obtain ⟨cyc, _, hpc⟩ := forE_mem_source _ _ _ hfe p hp
  obtain ⟨segs, hsegs, rfl⟩ := pathOfCycle_ok m cyc p hpc
  exact ⟨rfl, rfl, segmentsOfCycle_boundary m.graph cyc segs hsegs⟩

/-- Witness for C6: the two example cycle paths both start at the fiber
`(-3, [3, -3])` and their segments begin and end at the base point `-3`. -/
theorem claim_C6_witness :
    ∃ m, monodromy_module exCurve = .ok m ∧
      ∀ p ∈ [exPathA, exPathB], p.startX = m.base_point ∧
        p.startY = m.base_sheets ∧ BeginsEndsAt m.base_point p.segments :=
  claim_C6_start_fiber exCurve [exPathA, exPathB] (by with_unfolding_all rfl)

/-- C5: for every surface of genus `g` (as computed by the genus module),
`homology()` returns two equal-length sequences of length `g`
(the a-cycles and b-cycles) and `cycle_paths()` returns exactly `2g`
`RiemannSurfacePath`s, of which the first `g` parameterize the a-cycles in
order and the last `g` parameterize the b-cycles in order. -/
theorem claim_C5_cycle_path_count (c : CurveData) (ps : List RiemannSurfacePath)
    (acyc bcyc : List (List CycleEntry))
    (hps : cycle_paths_core c = .ok ps)
    (hab : homology_module c = .ok (acyc, bcyc)) :
    acyc.length = genus_module c ∧ bcyc.length = genus_module c ∧
    ps.length = 2 * genus_module c ∧
    ∃ m, monodromy_module c = .ok m ∧
      (∀ (j : ℕ) (cyc : List CycleEntry), acyc[j]? = some cyc →
        ∃ segs, segmentsOfCycle m.graph cyc = .ok segs ∧
          ps[j]? = some ⟨m.base_point, m.base_sheets, segs⟩) ∧
      (∀ (j : ℕ) (cyc : List CycleEntry), bcyc[j]? = some cyc →
        ∃ segs, segmentsOfCycle m.graph cyc = .ok segs ∧
          ps[genus_module c + j]? = some ⟨m.base_point, m.base_sheets, segs⟩) := by
  obtain ⟨acyc', bcyc', m, hab', hm, hfe⟩ := cycle_paths_core_ok c ps hps
  rw [hab] at hab'
  simp only [Except.ok.injEq, Prod.mk.injEq] at hab'
  obtain ⟨h1, h2⟩ := hab'
  subst h1
  subst h2
  obtain ⟨hla, hlb⟩ := homology_module_ok c acyc bcyc hab
  have hlen : ps.length = acyc.length + bcyc.length := by
    rw [forE_ok_length _ _ _ hfe, List.length_append]
  refine ⟨hla, hlb, by omega, m, hm, ?_, ?_⟩
  · intro j cyc hj
    have hidx : (acyc ++ bcyc)[j]? = some cyc := by
      rw [List.getElem?_append_left]
      · exact hj
      · exact (List.getElem?_eq_some.mp hj).1
    obtain ⟨p, hpc, hpj⟩ := forE_ok_getElem? _ _ _ hfe j cyc hidx
    obtain ⟨segs, hsegs, rfl⟩ := pathOfCycle_ok m cyc p hpc
    exact ⟨segs, hsegs, hpj⟩
  · intro j cyc hj
    have hidx : (acyc ++ bcyc)[genus_module c + j]? = some cyc := by
      rw [List.getElem?_append_right (by omega)]
      have : genus_module c + j - acyc.length = j := by omega
      rw [this]
      exact hj
    obtain ⟨p, hpc, hpj⟩ := forE_ok_getElem? _ _ _ hfe _ cyc hidx
    obtain ⟨segs, hsegs, rfl⟩ := pathOfCycle_ok m cyc p hpc
    exact ⟨segs, hsegs, hpj⟩

/-- Witness for C5: the example genus-1 curve yields one a-cycle, one b-cycle,
and exactly two cycle paths — the first parameterizing the a-cycle and the
second the b-cycle. -/
theorem claim_C5_witness :
    ([exCycleA] : List (List CycleEntry)).length = genus_module exCurve ∧
    ([exCycleB] : List (List CycleEntry)).length = genus_module exCurve ∧
    ([exPathA, exPathB] : List RiemannSurfacePath).length = 2 * genus_module exCurve ∧
    ∃ m, monodromy_module exCurve = .ok m ∧
      (∀ (j : ℕ) (cyc : List CycleEntry), ([exCycleA] : List (List CycleEntry))[j]? = some cyc →
        ∃ segs, segmentsOfCycle m.graph cyc = .ok segs ∧
          ([exPathA, exPathB] : List RiemannSurfacePath)[j]? =
            some ⟨m.base_point, m.base_sheets, segs⟩) ∧
      (∀ (j : ℕ) (cyc : List CycleEntry), ([exCycleB] : List (List CycleEntry))[j]? = some cyc →
        ∃ segs, segmentsOfCycle m.graph cyc = .ok segs ∧
          ([exPathA, exPathB] : List RiemannSurfacePath)[genus_module exCurve + j]? =
            some ⟨m.base_point, m.base_sheets, segs⟩) :=
  claim_C5_cycle_path_count exCurve [exPathA, exPathB] [exCycleA] [exCycleB]
    (by with_unfolding_all rfl) (by with_unfolding_all rfl)

/-- C9: (1) if some cycle returned by `homology()` names a branch point whose
value is not within `1e-15` of the `value` attribute of any monodromy-graph
node, then `cycle_paths()` fails with the uncaught indexing error of
evaluating `[...][0]` on an empty candidate list (`Err.indexError`, a Python
`IndexError` — not one of the spec's §7 error classes); (2) when one or more
nodes match within `1e-15`, the first matching node in graph iteration order
is silently chosen and construction proceeds with it. -/
theorem claim_C9_lookup_failure :
    (∀ (c : CurveData) (acyc bcyc : List (List CycleEntry)) (m : MonodromyData),
      homology_module c = .ok (acyc, bcyc) →
      monodromy_module c = .ok m →
      (∀ cyc ∈ acyc ++ bcyc, ∀ e ∈ slice1by2 cyc, e.isLoop = true) →
      (∃ cyc ∈ acyc ++ bcyc, ∃ bpt rot,
        CycleEntry.loop bpt rot ∈ slice1by2 cyc ∧ bptMatches m.graph bpt = []) →
      cycle_paths_core c = .error .indexError) ∧
    (∀ (G : MonodromyGraph) (bpt : Cplx) (rot : ℤ) (i k : ℕ) (d : NodeData),
      G.nodes[i]? = some (k, d) → Cplx.near d.value bpt = true →
      (∀ (j : ℕ) (kd : ℕ × NodeData), j < i → G.nodes[j]? = some kd →
        Cplx.near kd.2.value bpt = false) →
      segmentsOfEntry G (.loop bpt rot) = .ok (path_around_branch_point G k rot)) := by
  constructor
  · intro c acyc bcyc m hab hm hloops hbad
    obtain ⟨cycBad, hmemBad, bpt, rot, hentry, hnomatch⟩ := hbad
    have hentryErr : segmentsOfEntry m.graph (.loop bpt rot) = .error .indexError :=
      segmentsOfEntry_noMatch m.graph bpt rot hnomatch
    obtain ⟨e1, he1⟩ :=
      forE_error_of_mem (segmentsOfEntry m.graph) (slice1by2 cycBad) _ hentry _ hentryErr
    have hsc : segmentsOfCycle m.graph cycBad = .error e1 :=
      segmentsOfCycle_error_of _ _ _ he1
    have hpc : pathOfCycle m cycBad = .error e1 := pathOfCycle_error_of _ _ _ hsc
    obtain ⟨e2, he2⟩ := forE_error_of_mem (pathOfCycle m) (acyc ++ bcyc) _ hmemBad _ hpc
    obtain ⟨cyc2, hmem2, hc2⟩ := forE_error_source _ _ _ he2
    have he2idx : e2 = .indexError :=
      pathOfCycle_error_kind m cyc2 e2 (hloops cyc2 hmem2) hc2
    rw [cycle_paths_core_eq_forE c acyc bcyc m hab hm, he2, he2idx]
  · intro G bpt rot i k d hik hnear hbefore
    have hfil : (G.nodes.filter (fun kd => Cplx.near kd.2.value bpt)).head? =
        some (k, d) :=
      filter_head?_of_first _ _ i (k, d) hik hnear hbefore
    have hmat : (bptMatches G bpt).head? = some k := by
      unfold bptMatches
      rw [List.head?_map, hfil]
      rfl
    simp [segmentsOfEntry, hmat]

/-- Witness for C9: on the variant curve whose a-cycle names the unmatched
branch point `100`, `cycle_paths` fails with the uncaught `IndexError`; and
on a graph where two nodes (ids 7 and 8, in iteration order) both hold the
value `5`, the lookup of `5` silently proceeds with node 7, the first match. -/
theorem claim_C9_witness :
    cycle_paths_core exCurveBad = .error .indexError ∧
    bptMatches exGraphDup ⟨5, 0⟩ = [7, 8] ∧
    segmentsOfEntry exGraphDup (.loop ⟨5, 0⟩ 2) =
      .ok (path_around_branch_point exGraphDup 7 2) :=
  ⟨claim_C9_lookup_failure.1 exCurveBad [[.sheet 0, .loop ⟨100, 0⟩ 1]] [exCycleB] exMon
      (by with_unfolding_all rfl) (by with_unfolding_all rfl)
      (by with_unfolding_all decide)
      ⟨[.sheet 0, .loop ⟨100, 0⟩ 1], by with_unfolding_all decide, ⟨100, 0⟩, 1,
        by with_unfolding_all decide, by with_unfolding_all rfl⟩,
    by with_unfolding_all rfl,
    claim_C9_lookup_failure.2 exGraphDup ⟨5, 0⟩ 2 0 7 ⟨⟨5, 0⟩⟩ rfl
      (by with_unfolding_all decide)
      (fun j kd hj _ => absurd hj (Nat.not_lt_zero j))⟩

/-- C1: for every curve whose period-matrix computation succeeds, the result
is a pair of `g×g` matrices `(A, B)` with `A[i][j]` the value `integrate`
returns for the `i`-th holomorphic differential over the `j`-th a-cycle path
(position `j` among the cycle paths, which is built from the `j`-th a-cycle)
and `B[i][j]` the same over the `j`-th b-cycle path (position `j+g`, built
from the `j`-th b-cycle). -/
theorem claim_C1_period_matrix (c : CurveData) (A B : List (List Cplx))
    (h : period_matrix_core c = .ok (A, B)) :
    ∃ cycles acyc bcyc m,
      cycle_paths_core c = .ok cycles ∧
      homology_module c = .ok (acyc, bcyc) ∧
      monodromy_module c = .ok m ∧
      A.length = genus_module c ∧ B.length = genus_module c ∧
      (∀ row ∈ A, row.length = genus_module c) ∧
      (∀ row ∈ B, row.length = genus_module c) ∧
      (∀ i j : ℕ, i < genus_module c → j < genus_module c →
        ∃ w pa pb,
          (differentials_module c)[i]? = some w ∧
          cycles[j]? = some pa ∧
          cycles[j + genus_module c]? = some pb ∧
          (∃ cycA segsA, acyc[j]? = some cycA ∧
            segmentsOfCycle m.graph cycA = .ok segsA ∧
            pa = ⟨m.base_point, m.base_sheets, segsA⟩) ∧
          (∃ cycB segsB, bcyc[j]? = some cycB ∧
            segmentsOfCycle m.graph cycB = .ok segsB ∧
            pb = ⟨m.base_point, m.base_sheets, segsB⟩) ∧
          A[i]?.bind (fun row => row[j]?) =
            some (RiemannSurface.integrate w (c.trace pa)) ∧
          B[i]?.bind (fun row => row[j]?) =
            some (RiemannSurface.integrate w (c.trace pb))) := by
  obtain ⟨cycles, rows, hcyc, hrows, hA, hB⟩ := period_matrix_core_ok c A B h
  obtain ⟨acyc, bcyc, m, hab, hm, hfe⟩ := cycle_paths_core_ok c cycles hcyc
  obtain ⟨hla, hlb⟩ := homology_module_ok c acyc bcyc hab
  have hrowslen : rows.length = genus_module c := by
    rw [forE_ok_length _ _ _ hrows, List.length_range]
  refine ⟨cycles, acyc, bcyc, m, hcyc, hab, hm, ?_, ?_, ?_, ?_, ?_⟩
  · rw [hA, List.length_map, hrowslen]
  · rw [hB, List.length_map, hrowslen]
  · intro row hrow
    rw [hA] at hrow
    obtain ⟨r, hrmem, rfl⟩ := List.mem_map.mp hrow
    obtain ⟨iidx, _, hri⟩ := forE_mem_source _ _ _ hrows r hrmem
    obtain ⟨w, entryRow, _, hentryRow, hrEq⟩ := periodRow_ok c cycles iidx r hri
    rw [hrEq]
    simp [forE_ok_length _ _ _ hentryRow, List.length_range]
  · intro row hrow
    rw [hB] at hrow
    obtain ⟨r, hrmem, rfl⟩ := List.mem_map.mp hrow
    obtain ⟨iidx, _, hri⟩ := forE_mem_source _ _ _ hrows r hrmem
    obtain ⟨w, entryRow, _, hentryRow, hrEq⟩ := periodRow_ok c cycles iidx r hri
    rw [hrEq]
    simp [forE_ok_length _ _ _ hentryRow, List.length_range]
  · intro i j hi hj
    have hrangei : (List.range (genus_module c))[i]? = some i := by
      simp [List.getElem?_range, hi]
    obtain ⟨ri, hrowi, hrowsi⟩ := forE_ok_getElem? _ _ _ hrows i i hrangei
    obtain ⟨w, entryRow, hw, hentryRow, hriEq⟩ := periodRow_ok c cycles i ri hrowi
    have hrangej : (List.range (genus_module c))[j]? = some j := by
      simp [List.getElem?_range, hj]
    obtain ⟨eab, hentry, hentryj⟩ := forE_ok_getElem? _ _ _ hentryRow j j hrangej
    obtain ⟨pa, pb, hpa, hpb, habEq⟩ := periodEntry_ok c cycles w j eab hentry
    have hjlta : j < acyc.length := by omega
    have hjltb : j < bcyc.length := by omega
    have hcycA : acyc[j]? = some acyc[j] := List.getElem?_eq_getElem hjlta
    have hcycB : bcyc[j]? = some bcyc[j] := List.getElem?_eq_getElem hjltb
    have hidxA : (acyc ++ bcyc)[j]? = some acyc[j] := by
      rw [List.getElem?_append_left hjlta]
      exact hcycA
    have hidxB : (acyc ++ bcyc)[j + genus_module c]? = some bcyc[j] := by
      rw [List.getElem?_append_right (by omega)]
      have : j + genus_module c - acyc.length = j := by omega
      rw [this]
      exact hcycB
    obtain ⟨pa', hpca, hpja⟩ := forE_ok_getElem? _ _ _ hfe j acyc[j] hidxA
    obtain ⟨pb', hpcb, hpjb⟩ := forE_ok_getElem? _ _ _ hfe (j + genus_module c)
      bcyc[j] hidxB
    rw [hpja] at hpa
    rw [hpjb] at hpb
    injection hpa with hpaEq
    injection hpb with hpbEq
    obtain ⟨segsA, hsegsA, hshapeA⟩ := pathOfCycle_ok m acyc[j] pa' hpca
    obtain ⟨segsB, hsegsB, hshapeB⟩ := pathOfCycle_ok m bcyc[j] pb' hpcb
    refine ⟨w, pa', pb', hw, hpja, hpjb,
      ⟨acyc[j], segsA, hcycA, hsegsA, hshapeA⟩,
      ⟨bcyc[j], segsB, hcycB, hsegsB, hshapeB⟩, ?_, ?_⟩
    · have hAi : A[i]? = some (entryRow.map Prod.fst) := by
        rw [hA, List.getElem?_map, hrowsi, hriEq]
        rfl
      simp [hAi, List.getElem?_map, hentryj, habEq, hpaEq]
    · have hBi : B[i]? = some (entryRow.map Prod.snd) := by
        rw [hB, List.getElem?_map, hrowsi, hriEq]
        rfl
      simp [hBi, List.getElem?_map, hentryj, habEq, hpbEq]

/-- Witness for C1: the example genus-1 curve (whose continuation oracle makes
every integral `0`) produces the 1×1 pair `([[0]], [[0]])`, with its single
entry pair tied to the a-cycle path and the b-cycle path. -/
theorem claim_C1_witness :
    ∃ cycles acyc bcyc m,
      cycle_paths_core exCurve = .ok cycles ∧
      homology_module exCurve = .ok (acyc, bcyc) ∧
      monodromy_module exCurve = .ok m ∧
      ([[⟨0, 0⟩]] : List (List Cplx)).length = genus_module exCurve ∧
      ([[⟨0, 0⟩]] : List (List Cplx)).length = genus_module exCurve ∧
      (∀ row ∈ ([[⟨0, 0⟩]] : List (List Cplx)), row.length = genus_module exCurve) ∧
      (∀ row ∈ ([[⟨0, 0⟩]] : List (List Cplx)), row.length = genus_module exCurve) ∧
      (∀ i j : ℕ, i < genus_module exCurve → j < genus_module exCurve →
        ∃ w pa pb,
          (differentials_module exCurve)[i]? = some w ∧
          cycles[j]? = some pa ∧
          cycles[j + genus_module exCurve]? = some pb ∧
          (∃ cycA segsA, acyc[j]? = some cycA ∧
            segmentsOfCycle m.graph cycA = .ok segsA ∧
            pa = ⟨m.base_point, m.base_sheets, segsA⟩) ∧
          (∃ cycB segsB, bcyc[j]? = some cycB ∧
            segmentsOfCycle m.graph cycB = .ok segsB ∧
            pb = ⟨m.base_point, m.base_sheets, segsB⟩) ∧
          ([[⟨0, 0⟩]] : List (List Cplx))[i]?.bind (fun row => row[j]?) =
            some (RiemannSurface.integrate w (exCurve.trace pa)) ∧
          ([[⟨0, 0⟩]] : List (List Cplx))[i]?.bind (fun row => row[j]?) =
            some (RiemannSurface.integrate w (exCurve.trace pb))) :=
  claim_C1_period_matrix exCurve [[⟨0, 0⟩]] [[⟨0, 0⟩]] (by with_unfolding_all rfl)
